import Mathlib

/-! A verification development for the CiteURL citation engine
(`citeurl/citator.py`, `citation.py`, `tokens.py`, `regex_mods.py`,
`authority.py`, `hyperlink.py`).  The Python functions are shallowly
embedded as executable Lean definitions, and the theorems below settle
the specification's claims about them. -/

namespace CiteURL

/-- A citation as handled by `Citator.list_cites`: a half-open span in
the source text plus a tag recording which template (in declaration
order) produced it.  `len(citation)` in the Python source is the length
of the matched text, which equals the span length for every regex
match. -/
structure Cite where
  start : Nat
  stop : Nat
  tid : Nat
deriving DecidableEq, Repr

/-- Python `len(citation)`: the length of the matched text. -/
def Cite.size (c : Cite) : Nat := c.stop - c.start

/-- One insertion step of the stable sort performed by
`citations.sort(key=lambda x: x.span[0])` in `_sort_and_remove_overlaps`
(citator.py line 523). -/
def insertByStart (c : Cite) : List Cite → List Cite
  | [] => [c]
  | d :: rest =>
    if c.start ≤ d.start then c :: d :: rest else d :: insertByStart c rest

/-- Stable sort by span start; Python `list.sort` with key `span[0]` is
stable, and every stable sort by the same key produces this list. -/
def sortByStart : List Cite → List Cite
  | [] => []
  | c :: rest => insertByStart c (sortByStart rest)

/-- The deletion loop of `_sort_and_remove_overlaps` (citator.py lines
524-532), phrased on the sorted list: `prev` is `citations[i-1]` and the
list argument is `citations[i:]`.  Popping index `i` keeps `prev`;
popping index `i-1` continues with the current element as `prev`. -/
def removeAdj (prev : Cite) : List Cite → List Cite
  | [] => [prev]
  | c :: rest =>
    if c.start < prev.stop then
      if prev.size > c.size then removeAdj prev rest
      else removeAdj c rest
    else prev :: removeAdj c rest

/-- `_sort_and_remove_overlaps` (citator.py lines 517-532): sort by span
start, then delete the shorter of any two adjacent overlapping spans. -/
def sortAndRemoveOverlaps (cs : List Cite) : List Cite :=
  match sortByStart cs with
  | [] => []
  | c :: rest => removeAdj c rest

/-- Two half-open spans have a common position. -/
def spansIntersect (a b : Cite) : Prop :=
  max a.start b.start < min a.stop b.stop

theorem mem_insertByStart {x c : Cite} :
    ∀ {l : List Cite}, x ∈ insertByStart c l ↔ x = c ∨ x ∈ l := by
  intro l
  induction l with
  | nil => simp [insertByStart]
  | cons d rest ih =>
    rw [insertByStart]
    split
    · simp
    · simp only [List.mem_cons, ih]
      tauto

theorem pairwise_insertByStart {c : Cite} {l : List Cite}
    (h : List.Pairwise (fun a b => a.start ≤ b.start) l) :
    List.Pairwise (fun a b => a.start ≤ b.start) (insertByStart c l) := by
  induction l with
  | nil => simp [insertByStart]
  | cons d rest ih =>
    rw [insertByStart]
    rcases List.pairwise_cons.mp h with ⟨hd, hrest⟩
    split
    case isTrue hcd =>
      refine List.pairwise_cons.mpr ⟨?_, h⟩
      intro b hb
      rcases List.mem_cons.mp hb with rfl | hb
      · exact hcd
      · exact le_trans hcd (hd b hb)
    case isFalse hcd =>
      refine List.pairwise_cons.mpr ⟨?_, ih hrest⟩
      intro b hb
      rcases mem_insertByStart.mp hb with rfl | hb
      · omega
      · exact hd b hb

theorem mem_sortByStart {x : Cite} :
    ∀ {l : List Cite}, x ∈ sortByStart l ↔ x ∈ l := by
  intro l
  induction l with
  | nil => simp [sortByStart]
  | cons c rest ih =>
    rw [sortByStart]
    rw [mem_insertByStart]
    simp [ih]

theorem pairwise_sortByStart (l : List Cite) :
    List.Pairwise (fun a b => a.start ≤ b.start) (sortByStart l) := by
  induction l with
  | nil => simp [sortByStart]
  | cons c rest ih => exact pairwise_insertByStart ih

theorem mem_removeAdj {x : Cite} :
    ∀ {prev : Cite} {l : List Cite}, x ∈ removeAdj prev l → x ∈ prev :: l := by
  intro prev l
  induction l generalizing prev with
  | nil => simp [removeAdj]
  | cons c rest ih =>
    rw [removeAdj]
    split
    · split
      · intro h
        rcases List.mem_cons.mp (ih h) with rfl | h <;> simp [h]
      · intro h
        rcases List.mem_cons.mp (ih h) with rfl | h <;> simp [h]
    · intro h
      rcases List.mem_cons.mp h with rfl | h
      · simp
      · rcases List.mem_cons.mp (ih h) with rfl | h <;> simp [h]

theorem pairwise_removeAdj :
    ∀ {prev : Cite} {l : List Cite},
      List.Pairwise (fun a b => a.start ≤ b.start) (prev :: l) →
      List.Pairwise (fun a b => a.stop ≤ b.start) (removeAdj prev l) := by
  intro prev l
  induction l generalizing prev with
  | nil => simp [removeAdj]
  | cons c rest ih =>
    intro h
    rcases List.pairwise_cons.mp h with ⟨hprev, hcr⟩
    rcases List.pairwise_cons.mp hcr with ⟨hc, hrest⟩
    rw [removeAdj]
    split
    case isTrue hov =>
      split
      · refine ih (List.pairwise_cons.mpr ⟨?_, hrest⟩)
        intro b hb
        exact hprev b (List.mem_cons_of_mem _ hb)
      · exact ih hcr
    case isFalse hov =>
      refine List.pairwise_cons.mpr ⟨?_, ih hcr⟩
      intro b hb
      rcases List.mem_cons.mp (mem_removeAdj hb) with rfl | hb
      · omega
      · have := hc b hb
        omega

theorem mem_sortAndRemoveOverlaps {x : Cite} {cs : List Cite}
    (h : x ∈ sortAndRemoveOverlaps cs) : x ∈ cs := by
  unfold sortAndRemoveOverlaps at h
  rcases heq : sortByStart cs with _ | ⟨c, rest⟩ <;> rw [heq] at h
  · simp at h
  · have hx : x ∈ c :: rest := mem_removeAdj h
    rw [← heq] at hx
    exact mem_sortByStart.mp hx

theorem pairwise_sep_sortAndRemoveOverlaps (cs : List Cite) :
    List.Pairwise (fun a b => a.stop ≤ b.start) (sortAndRemoveOverlaps cs) := by
  unfold sortAndRemoveOverlaps
  rcases heq : sortByStart cs with _ | ⟨c, rest⟩
  · simp
  · have := pairwise_sortByStart cs
    rw [heq] at this
    exact pairwise_removeAdj this

/-- C1.  For every input list of citations whose spans are nonempty (a
terminating scan only yields nonempty regex matches), the list returned
by `Citator.list_cites`, which is the in-place result of the final
`_sort_and_remove_overlaps`, contains no two citations with
intersecting spans, and its span starts are strictly increasing. -/
theorem sortAndRemoveOverlaps_no_intersect_strict_sorted (cs : List Cite)
    (h : ∀ c ∈ cs, c.start < c.stop) :
    List.Pairwise (fun a b => ¬ spansIntersect a b) (sortAndRemoveOverlaps cs) ∧
    List.Pairwise (fun a b => a.start < b.start) (sortAndRemoveOverlaps cs) := by
  have hsep := pairwise_sep_sortAndRemoveOverlaps cs
  constructor
  · refine hsep.imp ?_
    intro a b hab
    unfold spansIntersect
    omega
  · refine List.Pairwise.imp_of_mem ?_ hsep
    intro a b ha _ hab
    have hpos := h a (mem_sortAndRemoveOverlaps ha)
    omega

theorem sortAndRemoveOverlaps_no_intersect_strict_sorted_witness :
    (∀ c ∈ [Cite.mk 5 9 0, Cite.mk 0 3 1, Cite.mk 2 6 2], c.start < c.stop) ∧
    (List.Pairwise (fun a b => ¬ spansIntersect a b)
      (sortAndRemoveOverlaps [Cite.mk 5 9 0, Cite.mk 0 3 1, Cite.mk 2 6 2]) ∧
    List.Pairwise (fun a b => a.start < b.start)
      (sortAndRemoveOverlaps [Cite.mk 5 9 0, Cite.mk 0 3 1, Cite.mk 2 6 2])) :=
  ⟨by decide,
   sortAndRemoveOverlaps_no_intersect_strict_sorted
     [Cite.mk 5 9 0, Cite.mk 0 3 1, Cite.mk 2 6 2] (by decide)⟩

/-- C3 counterexample.  Two citations occupy the same span; the one
declared first (tag 0, listed first, hence earlier in the stable sort)
is dropped by `_sort_and_remove_overlaps`, and the later one is kept,
contradicting the claim that the earlier-declared template wins. -/
theorem overlap_tie_counterexample :
    Cite.mk 0 5 0 ∉ sortAndRemoveOverlaps [Cite.mk 0 5 0, Cite.mk 0 5 1] ∧
    sortAndRemoveOverlaps [Cite.mk 0 5 0, Cite.mk 0 5 1] = [Cite.mk 0 5 1] := by
  decide

/-- C3 amended.  When two citations produced from two different
templates occupy the same nonempty span, overlap resolution keeps the
citation from the template declared later in the citator (the second of
the two in scan order) and drops the earlier one: on a length tie the
loop pops index `i-1`. -/
theorem overlap_tie_later_template_wins (a b : Cite)
    (hstart : a.start = b.start) (hstop : a.stop = b.stop)
    (hpos : a.start < a.stop) :
    sortAndRemoveOverlaps [a, b] = [b] := by
  have hov : b.start < a.stop := by omega
  have hsz : ¬ a.size > b.size := by
    unfold Cite.size
    omega
  simp [sortAndRemoveOverlaps, sortByStart, insertByStart, hstart, removeAdj,
    hov, hsz]

theorem overlap_tie_later_template_wins_witness :
    (Cite.mk 2 7 0).start = (Cite.mk 2 7 1).start ∧
    (Cite.mk 2 7 0).stop = (Cite.mk 2 7 1).stop ∧
    (Cite.mk 2 7 0).start < (Cite.mk 2 7 0).stop ∧
    sortAndRemoveOverlaps [Cite.mk 2 7 0, Cite.mk 2 7 1] = [Cite.mk 2 7 1] :=
  ⟨rfl, rfl, by decide,
   overlap_tie_later_template_wins (Cite.mk 2 7 0) (Cite.mk 2 7 1) rfl rfl
     (by decide)⟩

/-! ## `match_regexes` (regex_mods.py lines 40-66)

A compiled regex is abstracted by its search behaviour: `f pos endpos`
models Python `regex.search(text, pos, endpos)`, returning the span of
the first match at or after `pos` (and, when `endpos` is given, ending
by it), or `none`. -/

def SearchFn : Type := Nat → Option Nat → Option (Nat × Nat)

/-- The spans an abstract search over a text of length `len` may
return: at or after the requested position, well formed, within the
text, and honouring a requested end position. -/
def ValidSearch (len : Nat) (f : SearchFn) : Prop :=
  ∀ pos endpos m, f pos endpos = some m →
    pos ≤ m.1 ∧ m.1 ≤ m.2 ∧ m.2 ≤ len ∧ ∀ e, endpos = some e → m.2 ≤ e

/-- A search that never produces an empty match. -/
def NonEmptySearch (f : SearchFn) : Prop :=
  ∀ pos endpos m, f pos endpos = some m → m.1 < m.2

/-- The `span = (start, end) if end else (start,)` line of
`match_regexes` (regex_mods.py line 55): Python truthiness makes an end
position of `0` (and `None`) mean "search to the end of the text". -/
def effEnd : Option Nat → Option Nat
  | some 0 => none
  | e => e

/-- The sort key comparison of `match_regexes` (regex_mods.py line 62):
key `(x.span()[0], -len(x.group()))`; `a` is strictly better than `b`
when it starts earlier, or starts at the same place and is longer. -/
def keyLt (a b : Nat × Nat) : Bool :=
  a.1 < b.1 || (a.1 == b.1 && b.2 - b.1 < a.2 - a.1)

/-- `matches.sort(...)` followed by `matches[0]`: the first element
with minimal key (Python's sort is stable, so on equal keys the match
of the earlier regex in the list wins). -/
def pickBest : List (Nat × Nat) → Option (Nat × Nat)
  | [] => none
  | m :: ms => some (ms.foldl (fun acc x => if keyLt x acc then x else acc) m)

/-- One round of the `while keep_trying` loop of `match_regexes`
(regex_mods.py lines 54-66): search every regex from the cursor,
collect the matches, and pick the best one. -/
def matchStep (fs : List SearchFn) (cursor : Nat) (endpos : Option Nat) :
    Option (Nat × Nat) :=
  pickBest (fs.filterMap (fun f => f cursor (effEnd endpos)))

/-- The `match_regexes` generator run with fuel: the spans it yields,
and whether the loop reached its natural end (`keep_trying = False`)
within the fuel. -/
def matchRegexesAux (fs : List SearchFn) (endpos : Option Nat) :
    Nat → Nat → List (Nat × Nat) × Bool
  | 0, _ => ([], false)
  | fuel + 1, cursor =>
    match matchStep fs cursor endpos with
    | none => ([], true)
    | some m =>
      let r := matchRegexesAux fs endpos fuel m.2
      (m :: r.1, r.2)

theorem pickBest_mem {l : List (Nat × Nat)} {m : Nat × Nat}
    (h : pickBest l = some m) : m ∈ l := by
  match l with
  | [] => simp [pickBest] at h
  | m₀ :: ms =>
    simp only [pickBest, Option.some.injEq] at h
    subst h
    induction ms generalizing m₀ with
    | nil => simp
    | cons x xs ih =>
      simp only [List.foldl_cons]
      rcases heq : (if keyLt x m₀ then x else m₀) with _
      split at heq <;> subst heq
      · have := ih x
        simp only [List.mem_cons] at this ⊢
        tauto
      · have := ih m₀
        simp only [List.mem_cons] at this ⊢
        tauto

theorem matchStep_some {fs : List SearchFn} {cursor : Nat}
    {endpos : Option Nat} {m : Nat × Nat}
    (h : matchStep fs cursor endpos = some m) :
    ∃ f ∈ fs, f cursor (effEnd endpos) = some m := by
  have hm := pickBest_mem h
  rcases List.mem_filterMap.mp hm with ⟨f, hf, hfm⟩
  exact ⟨f, hf, hfm⟩

theorem matchRegexesAux_spec (len : Nat) (fs : List SearchFn)
    (endpos : Option Nat)
    (hv : ∀ f ∈ fs, ValidSearch len f)
    (hne : ∀ f ∈ fs, NonEmptySearch f) :
    ∀ fuel cursor, len + 1 - cursor < fuel →
      (matchRegexesAux fs endpos fuel cursor).2 = true ∧
      List.Pairwise (fun a b => a.2 ≤ b.1) (matchRegexesAux fs endpos fuel cursor).1 ∧
      ∀ x ∈ (matchRegexesAux fs endpos fuel cursor).1, cursor ≤ x.1 := by
  intro fuel
  induction fuel with
  | zero => omega
  | succ k ih =>
    intro cursor hfuel
    rw [matchRegexesAux]
    rcases hstep : matchStep fs cursor endpos with _ | m
    · simp
    · rcases matchStep_some hstep with ⟨f, hf, hfm⟩
      rcases hv f hf cursor (effEnd endpos) m hfm with ⟨h1, _, h3, _⟩
      have h2 := hne f hf cursor (effEnd endpos) m hfm
      have hrec := ih m.2 (by omega)
      rcases hrec with ⟨ht, hp, hge⟩
      refine ⟨ht, ?_, ?_⟩
      · refine List.pairwise_cons.mpr ⟨?_, hp⟩
        intro b hb
        exact hge b hb
      · intro x hx
        rcases List.mem_cons.mp hx with rfl | hx
        · exact h1
        · have := hge x hx
          omega

/-- C9 counterexample: the second half of the claim asserts that
whenever some regex matches the empty string at the cursor the cursor
does not advance and the generator does not terminate.  Here the first
"regex" matches the empty string at the cursor `0`, yet the key sort
prefers the second regex's longer match at the same start, the cursor
advances to `3`, and the generator terminates after one yield. -/
def emptyAtZero : SearchFn := fun pos _ =>
  if pos = 0 then some (0, 0) else none

def longAtZero : SearchFn := fun pos _ =>
  if pos = 0 then some (0, 3) else none

theorem match_regexes_empty_counterexample :
    emptyAtZero 0 none = some (0, 0) ∧
    matchRegexesAux [emptyAtZero, longAtZero] none 12 0 = ([(0, 3)], true) :=
  ⟨rfl, rfl⟩

/-- C9 amended.  For searches that return positions inside the text, at
or after the cursor: (i) if no regex can match an empty substring, the
generator terminates within `len + 2` rounds, and each yielded match
starts at or after the end of the previous one, so yielded matches
never overlap; (ii) if the best match at the cursor (earliest-starting,
then longest, then earliest-listed) is itself the empty match at the
cursor, the cursor does not advance and the generator never reaches its
natural end, whatever the fuel. -/
theorem match_regexes_termination_and_order (len : Nat) (fs : List SearchFn)
    (endpos : Option Nat) :
    ((∀ f ∈ fs, ValidSearch len f) → (∀ f ∈ fs, NonEmptySearch f) →
      ∀ cursor,
        (matchRegexesAux fs endpos (len + 2) cursor).2 = true ∧
        List.Pairwise (fun a b => a.2 ≤ b.1)
          (matchRegexesAux fs endpos (len + 2) cursor).1) ∧
    (∀ cursor, matchStep fs cursor endpos = some (cursor, cursor) →
      ∀ fuel, (matchRegexesAux fs endpos fuel cursor).2 = false) := by
  constructor
  · intro hv hne cursor
    have h := matchRegexesAux_spec len fs endpos hv hne (len + 2) cursor (by omega)
    exact ⟨h.1, h.2.1⟩
  · intro cursor hstep fuel
    induction fuel with
    | zero => rw [matchRegexesAux]
    | succ k ih =>
      rw [matchRegexesAux, hstep]
      exact ih

/-- A search modelling a text of length 10 whose single match is the
span `[4, 6)`, for the witness below. -/
def sampleSearch : SearchFn := fun pos ep =>
  if pos ≤ 4 && (match ep with | none => true | some e => 6 ≤ e) then
    some (4, 6)
  else none

/-- A search that always returns the empty match at position 0. -/
def stuckSearch : SearchFn := fun _ _ => some (0, 0)

theorem match_regexes_termination_and_order_witness :
    matchRegexesAux [sampleSearch] none 12 0 = ([(4, 6)], true) ∧
    (matchRegexesAux [stuckSearch] none 9 0).2 = false := by
  constructor
  · have h := (match_regexes_termination_and_order 10 [sampleSearch] none).1
      (by
        intro f hf
        simp only [List.mem_singleton] at hf
        subst hf
        intro pos ep m hm
        simp only [sampleSearch] at hm
        split at hm
        · rename_i hcond
          simp only [Bool.and_eq_true, decide_eq_true_eq] at hcond
          simp only [Option.some.injEq] at hm
          subst hm
          refine ⟨hcond.1, by omega, by omega, ?_⟩
          intro e he
          subst he
          simpa using hcond.2
        · exact absurd hm (by simp))
      (by
        intro f hf
        simp only [List.mem_singleton] at hf
        subst hf
        intro pos ep m hm
        simp only [sampleSearch] at hm
        split at hm
        · simp only [Option.some.injEq] at hm
          subst hm
          omega
        · exact absurd hm (by simp))
      0
    have : matchRegexesAux [sampleSearch] none 12 0 = ([(4, 6)], true) := rfl
    exact this
  · exact (match_regexes_termination_and_order 10 [stuckSearch] none).2 0 rfl 9

/-! ## The id-form phase of `Citator.list_cites` (citator.py 440-469) -/

/-- Insertion into a sorted list of numbers. -/
def insertNat (n : Nat) : List Nat → List Nat
  | [] => [n]
  | m :: rest => if n ≤ m then n :: m :: rest else m :: insertNat n rest

/-- `sorted(set(...))` over the breakpoint candidates (citator.py line
446): the start of every committed citation plus every id-break match
start, deduplicated and sorted ascending. -/
def initialBreakpoints (cites : List Cite) (idBreakStarts : List Nat) :
    List Nat :=
  ((cites.map Cite.start) ++ idBreakStarts).dedup.foldr insertNat []

/-- The breakpoint-truncation loop of `list_cites` (citator.py lines
454-457): find the first breakpoint at or past the citation's end and
drop everything before it; when no breakpoint qualifies, the `for` loop
falls through and the list is left unchanged. -/
def nextBreakpoints (bps : List Nat) (citeEnd : Nat) : List Nat :=
  match bps.findIdx? (fun b => citeEnd ≤ b) with
  | some i => bps.drop i
  | none => bps

/-- `Citation.get_idform_cite(until_index)` (citation.py lines
169-180): the first yield of `match_regexes` over the citation's
id-form regexes on `span = (span_end, until_index)`; the citation's
compiled id regexes are abstracted by `search`. -/
def getIdformCite (search : List SearchFn) (pos : Nat)
    (untilIdx : Option Nat) : Option (Nat × Nat) :=
  matchStep search pos untilIdx

/-- The `while idform:` chain of `list_cites` (citator.py lines
466-469), with fuel. -/
def idformChain (search : List SearchFn) (untilIdx : Option Nat) :
    Nat → Nat → List (Nat × Nat)
  | 0, _ => []
  | fuel + 1, pos =>
    match getIdformCite search pos untilIdx with
    | none => []
    | some m => m :: idformChain search untilIdx fuel m.2

/-- The per-citation id-form loop of `list_cites` (citator.py lines
450-469): truncate the breakpoint list at the citation's end, take the
head of what remains as the chain limit (`none`, from the `IndexError`
branch, only when the list is empty), and collect the chain of id-form
spans; the truncated list is threaded to the next citation. -/
def idformPhase (search : List SearchFn) (fuel : Nat) :
    List Cite → List Nat → List (Nat × Nat)
  | [], _ => []
  | c :: rest, bps =>
    let bps' := nextBreakpoints bps c.stop
    idformChain search bps'.head? fuel c.stop ++ idformPhase search fuel rest bps'

/-- A search modelling a text of length 25 whose only id-form match is
the span `[22, 25)` (an `Id.` right after a citation ending at 21). -/
def trailingIdSearch : SearchFn := fun pos ep =>
  if pos ≤ 22 && (match ep with | none => true | some e => 25 ≤ e) then
    some (22, 25)
  else none

/-- C2.  Failing input for the claim's end-of-text fallback: a single
committed citation with span `[4, 21)` in a text of length 25 followed
by an `Id.` at `[22, 25)`.  The only breakpoint is the citation's own
start `4`; no breakpoint is at or past its end `21`, so the claim says
the id-form window is `[21, 25)` and the `Id.` is found.  The code's
truncation loop leaves the stale breakpoint `4` in place instead of
exhausting the list, the chain limit becomes `4 < 21`, the search
window is empty, and no id-form citation is produced at all, even
though the search finds `[22, 25)` when allowed to run to the end of
the text. -/
theorem idform_window_stale_breakpoint :
    initialBreakpoints [Cite.mk 4 21 0] [] = [4] ∧
    nextBreakpoints [4] 21 = [4] ∧
    trailingIdSearch 21 none = some (22, 25) ∧
    idformPhase [trailingIdSearch] 8 [Cite.mk 4 21 0] [4] = [] :=
  ⟨rfl, rfl, rfl, rfl⟩

/-! ## `TokenOperation._number_style` (tokens.py lines 193-215) -/

instance {ε α : Type} [DecidableEq ε] [DecidableEq α] :
    DecidableEq (Except ε α) := fun a b =>
  match a, b with
  | Except.error e₁, Except.error e₂ =>
    if h : e₁ = e₂ then Decidable.isTrue (by rw [h])
    else Decidable.isFalse (fun hc => by cases hc; exact h rfl)
  | Except.ok x, Except.ok y =>
    if h : x = y then Decidable.isTrue (by rw [h])
    else Decidable.isFalse (fun hc => by cases hc; exact h rfl)
  | Except.error _, Except.ok _ => Decidable.isFalse (fun hc => by cases hc)
  | Except.ok _, Except.error _ => Decidable.isFalse (fun hc => by cases hc)

/-- The Python runtime faults the token operations can raise. -/
inductive PyErr
  | syntaxErr
  | keyErr
  | unboundLocalErr
  | indexErr
deriving DecidableEq, Repr

/-- Python `str.lower`, on the character data. -/
def pyLower (s : String) : String := String.mk (s.toList.map Char.toLower)

/-- Python `str.upper`, on the character data. -/
def pyUpper (s : String) : String := String.mk (s.toList.map Char.toUpper)

/-- Python `s[:-n]`: drop the last `n` characters. -/
def pyDropRight (s : String) (n : Nat) : String :=
  String.mk (s.toList.take (s.toList.length - n))

/-- `str.isnumeric` on the ASCII digit strings the capture groups
produce. -/
def pyIsNumeric (s : String) : Bool :=
  s.toList ≠ [] && s.toList.all Char.isDigit

/-- `int(...)` on a string of digits. -/
def digitsToNat (s : String) : Nat :=
  s.toList.foldl (fun n c => n * 10 + (c.toNat - 48)) 0

/-- Python list indexing: a negative index wraps once; anything still
out of range raises `IndexError`. -/
def pyIndex {α : Type} (l : List α) (i : Int) : Except PyErr α :=
  let j : Int := if i < 0 then i + l.length else i
  if 0 ≤ j then
    match l.get? j.toNat with
    | some a => Except.ok a
    | none => Except.error PyErr.indexErr
  else Except.error PyErr.indexErr

/-- The target formats `_number_style` accepts after the validation in
`TokenOperation.__init__` (tokens.py lines 90-97). -/
inductive NumForm
  | digit
  | roman
  | cardinal
  | ordinal
deriving DecidableEq, Repr

/-- The `number_words` table (tokens.py lines 390-428) after the
module-level loop has expanded the bare roman-numeral entries: entry
`n - 1` holds the roman, cardinal and ordinal forms of `n` for
1 ≤ n ≤ 40.  The roman numeral for 40 is spelled `xL` in the source. -/
def numberWords : List (String × String × String) := [
  ("i", "one", "first"),
  ("ii", "two", "second"),
  ("iii", "three", "third"),
  ("iv", "four", "fourth"),
  ("v", "five", "fifth"),
  ("vi", "six", "sixth"),
  ("vii", "seven", "seventh"),
  ("viii", "eight", "eighth"),
  ("ix", "nine", "ninth"),
  ("x", "ten", "tenth"),
  ("xi", "eleven", "eleventh"),
  ("xii", "twelve", "twelfth"),
  ("xiii", "thirteen", "thirteenth"),
  ("xiv", "fourteen", "fourteenth"),
  ("xv", "fifteen", "fifteenth"),
  ("xvi", "sixteen", "sixteenth"),
  ("xvii", "seventeen", "seventeenth"),
  ("xviii", "eighteen", "eighteenth"),
  ("xix", "nineteen", "nineteenth"),
  ("xx", "twenty", "twentieth"),
  ("xxi", "twenty-one", "twenty-first"),
  ("xxii", "twenty-two", "twenty-second"),
  ("xxiii", "twenty-three", "twenty-third"),
  ("xxiv", "twenty-four", "twenty-fourth"),
  ("xxv", "twenty-five", "twenty-fifth"),
  ("xxvi", "twenty-six", "twenty-sixth"),
  ("xxvii", "twenty-seven", "twenty-seventh"),
  ("xxviii", "twenty-eight", "twenty-eighth"),
  ("xxix", "twenty-nine", "twenty-ninth"),
  ("xxx", "thirty", "thirtieth"),
  ("xxxi", "thirty-one", "thirty-first"),
  ("xxxii", "thirty-two", "thirty-second"),
  ("xxxiii", "thirty-three", "thirty-third"),
  ("xxxiv", "thirty-four", "thirty-fourth"),
  ("xxxv", "thirty-five", "thirty-fifth"),
  ("xxxvi", "thirty-six", "thirty-sixth"),
  ("xxxvii", "thirty-seven", "thirty-seventh"),
  ("xxxviii", "thirty-eight", "thirty-eighth"),
  ("xxxix", "thirty-nine", "thirty-ninth"),
  ("xL", "forty", "fortieth")]

/-- `TokenOperation._number_style` (tokens.py lines 193-215), with
Python's runtime faults made explicit: when the input is not recognised
and `throw_error` is false, the local `value` is never assigned, so its
first use raises `UnboundLocalError`; `number_words[value - 1]` raises
`IndexError` for values above 40 and wraps around (negative indexing)
for value 0. -/
def numberStyle (input : String) (form : NumForm) (throwErr : Bool) :
    Except PyErr String :=
  let value : Except PyErr (Option Nat) :=
    if pyIsNumeric input then Except.ok (some (digitsToNat input))
    else if pyIsNumeric (pyDropRight input 2) then
      Except.ok (some (digitsToNat (pyDropRight input 2)))
    else
      let low := pyLower input
      match numberWords.findIdx?
          (fun row => low == row.1 || low == row.2.1 || low == row.2.2) with
      | some i => Except.ok (some (i + 1))
      | none =>
        if throwErr then Except.error PyErr.syntaxErr else Except.ok none
  match value with
  | Except.error e => Except.error e
  | Except.ok none => Except.error PyErr.unboundLocalErr
  | Except.ok (some v) =>
    if form = NumForm.digit then Except.ok (toString v)
    else
      match pyIndex numberWords ((v : Int) - 1) with
      | Except.error e => Except.error e
      | Except.ok row =>
        match form with
        | NumForm.roman => Except.ok (pyUpper row.1)
        | NumForm.cardinal => Except.ok row.2.1
        | NumForm.ordinal => Except.ok row.2.2
        | NumForm.digit => Except.ok (toString v)

/-- The `except SyntaxError` handling around `Citation(...)` in
`Template.cite` and `Template.list_longform_cites` (citator.py lines
258-264 and 273-277): an invalid citation is skipped, but any other
exception escapes to the caller of `Citator.cite` and
`Citator.list_cites`. -/
def catchSyntaxErr {α : Type} (r : Except PyErr α) : Except PyErr (Option α) :=
  match r with
  | Except.ok a => Except.ok (some a)
  | Except.error PyErr.syntaxErr => Except.ok none
  | Except.error e => Except.error e

/-- C4.  `_number_style` with `mandatory=False` does not pass an
unrecognized value through: Python's `value` is never assigned, so its
use raises `UnboundLocalError`; a numeric value above 40 raises
`IndexError` under every non-digit form; and `0` silently becomes
forty.  None of these are the `SyntaxError` that the scan treats as an
invalid citation, so they escape `Citator.cite` / `list_cites`. -/
theorem number_style_optional_raises :
    numberStyle "foo" NumForm.digit false = Except.error PyErr.unboundLocalErr ∧
    numberStyle "50" NumForm.roman false = Except.error PyErr.indexErr ∧
    numberStyle "0" NumForm.roman false = Except.ok "XL" ∧
    catchSyntaxErr (numberStyle "foo" NumForm.digit false) =
      Except.error PyErr.unboundLocalErr := by
  refine ⟨?_, ?_, ?_, ?_⟩ <;> decide

/-! ## Python dictionaries, `StringBuilder` (tokens.py 299-375) -/

/-- A Python `dict` with string keys, as an insertion-ordered
association list: assignment overwrites in place or appends at the
end, as CPython dicts do. -/
def dictSet {α : Type} : List (String × α) → String → α → List (String × α)
  | [], k, v => [(k, v)]
  | (k', v') :: rest, k, v =>
    if k' = k then (k', v) :: rest else (k', v') :: dictSet rest k v

/-- Python `dict.get`: `none` when the key is absent. -/
def dictGet {α : Type} : List (String × α) → String → Option α
  | [], _ => none
  | (k', v') :: rest, k => if k' = k then some v' else dictGet rest k

/-- Python `dict.update`: set every pair of `other`, in order. -/
def dictUpdate {α : Type} (d other : List (String × α)) : List (String × α) :=
  other.foldl (fun acc kv => dictSet acc kv.1 kv.2) d

/-- Python truthiness of an optional string: `None` and the empty
string are falsy. -/
def truthy : Option String → Bool
  | none => false
  | some s => s ≠ ""

/-- A `TokenOperation` (tokens.py lines 6-151) as `StringBuilder` uses
it: `func` is the closure compiled from the action and its data in
`__init__`, `token` names the input token, and `output`, when set,
redirects where `modify_dict` stores the result. -/
structure TokenOperation where
  func : String → Except PyErr String
  token : Option String
  output : Option String

/-- `TokenOperation._lookup` (tokens.py lines 164-177): the first full
match wins; a mandatory miss raises `SyntaxError`; an optional miss
passes the input through.  A compiled key regex is abstracted by its
case-insensitive full-match test. -/
def lookupOp (table : List ((String → Bool) × String)) (mandatory : Bool)
    (input : String) : Except PyErr String :=
  match table.find? (fun e => e.1 input) with
  | some e => Except.ok e.2
  | none =>
    if mandatory then Except.error PyErr.syntaxErr else Except.ok input

/-- `TokenOperation.modify_dict` (tokens.py lines 138-148): return
unchanged when the input token is missing or falsy; otherwise apply
`func` and store the result under `output`, or in place. -/
def modifyDict (op : TokenOperation) (tokens : List (String × String)) :
    Except PyErr (List (String × String)) :=
  match op.token with
  | none => Except.ok tokens
  | some t =>
    match dictGet tokens t with
    | none => Except.ok tokens
    | some v =>
      if v = "" then Except.ok tokens
      else
        match op.func v with
        | Except.error e => Except.error e
        | Except.ok r => Except.ok (dictSet tokens (op.output.getD t) r)

/-- `str.format` with plain named fields — the only form the templates'
parts use — scanning the character data with fuel: replace each
bracketed name with the token's value; a missing name is Python's
`KeyError`, modelled as `none`. -/
def formatScanAux (tokens : List (String × String)) :
    Nat → List Char → Option (List Char)
  | 0, s => some s
  | _, [] => some []
  | fuel + 1, c :: rest =>
    if c = '\x7b' then
      let key := rest.takeWhile (fun d => d ≠ '\x7d')
      let rest' := rest.drop (key.length + 1)
      match dictGet tokens (String.mk key) with
      | none => none
      | some v =>
        match formatScanAux tokens fuel rest' with
        | none => none
        | some out => some (v.toList ++ out)
    else
      match formatScanAux tokens fuel rest with
      | none => none
      | some out => some (c :: out)

/-- `part.format(**tokens)` (tokens.py line 367). -/
def formatPart (part : String) (tokens : List (String × String)) :
    Option String :=
  (formatScanAux tokens part.toList.length part.toList).map String.mk

/-- `StringBuilder` (tokens.py lines 299-346): ordered parts, edits to
run over an ephemeral token copy, and default token values. -/
structure StringBuilder where
  parts : List String
  edits : List TokenOperation
  defaults : List (String × String)

/-- `StringBuilder.__call__` (tokens.py lines 348-375): merge defaults
under the supplied tokens, drop falsy values, apply each edit catching
and discarding its `SyntaxError`, then interpolate each part, skipping
parts whose names are missing.  `part.format` itself can only raise
`KeyError`, so the `except SyntaxError` branch of the parts loop — the
one that would null the whole build — is unreachable. -/
def sbCall (sb : StringBuilder) (tokens : List (String × String)) :
    Option String :=
  let tokens :=
    if sb.defaults ≠ [] then dictUpdate sb.defaults tokens else tokens
  let tokens := tokens.filter (fun kv => kv.2 ≠ "")
  let tokens := sb.edits.foldl
    (fun t op =>
      match modifyDict op t with
      | Except.ok t' => t'
      | Except.error _ => t)
    tokens
  let parts := sb.parts.filterMap (fun p => formatPart p tokens)
  let s := String.join parts
  if s = "" then none else some s

/-- A mandatory lookup on token `a` whose only key regex matches the
exact string `q`. -/
def missLookupOp : TokenOperation :=
  { func := lookupOp [(fun s => s == "q", "z")] true,
    token := some "a", output := none }

/-- A builder with one interpolated part and the mandatory edit. -/
def sampleBuilder : StringBuilder :=
  { parts := ["x\x7ba\x7d"], edits := [missLookupOp], defaults := [] }

/-- C5.  A mandatory edit fails (`modify_dict` raises `SyntaxError`),
yet the build is not null: the edits loop of `StringBuilder.__call__`
catches the exception and just skips the edit, so the part interpolates
the unedited token value and the build returns the assembled string,
contradicting the claim (and the dead `string_parts = []` handler whose
comment documents the intended behaviour). -/
theorem string_builder_mandatory_failure_not_null :
    modifyDict missLookupOp [("a", "b")] = Except.error PyErr.syntaxErr ∧
    sbCall sampleBuilder [("a", "b")] = some "xb" := by
  constructor <;> decide

/-! ## `process_pattern` (regex_mods.py lines 5-37) -/

/-- Python `str.replace` (left to right, non-overlapping) on character
data, with fuel; the markers replaced are never empty. -/
def replaceCharsAux (pat repl : List Char) : Nat → List Char → List Char
  | 0, s => s
  | _, [] => []
  | fuel + 1, c :: rest =>
    if pat.isPrefixOf (c :: rest) then
      repl ++ replaceCharsAux pat repl fuel ((c :: rest).drop pat.length)
    else
      c :: replaceCharsAux pat repl fuel rest

/-- `pattern.replace(marker, value)` (regex_mods.py line 34). -/
def pyReplace (s marker repl : String) : String :=
  String.mk (replaceCharsAux marker.toList repl.toList s.toList.length s.toList)

/-- `process_pattern` (regex_mods.py lines 5-37): substitute each
truthy replacement — wrapped in a group unless already parenthesized,
followed by the lookahead `(?=\W|$)` — and, when word breaks are
requested, surround the whole pattern with `(?<!\w)` and `(?!=\w)`.
The trailing guard the code attaches is the literal `(?!=\w)`. -/
def processPattern (pattern : String) (replacements : List (String × String))
    (tokenPre : Option String) (addWordBreaks : Bool) : String :=
  let processed := replacements.foldl
    (fun pat kv =>
      if kv.2 = "" then pat
      else
        let marker :=
          match tokenPre with
          | some pre => "\x7b" ++ pre ++ " " ++ kv.1 ++ "\x7d"
          | none => "\x7b" ++ kv.1 ++ "\x7d"
        let v :=
          if kv.2.toList.head? == some '(' && kv.2.toList.getLast? == some ')'
          then kv.2
          else "(" ++ kv.2 ++ ")"
        let v := v ++ "(?=\\W|$)"
        pyReplace pat marker v)
    pattern
  if addWordBreaks then "(?<!\\w)" ++ processed ++ "(?!=\\w)" else processed

/-- A regex word character, `\w`. -/
def isWordChar (c : Char) : Bool := c.isAlphanum || c = '_'

/-- The ending guard the specification prescribes: the negative
lookahead `(?!\w)` succeeds at position `i` of the text iff no word
character is there. -/
def negLookaheadWord (text : List Char) (i : Nat) : Bool :=
  match text.get? i with
  | some c => ! isWordChar c
  | none => true

/-- The ending guard the code emits: `(?!=\w)` succeeds at position `i`
unless a literal `=` followed by a word character is there. -/
def negLookaheadEqWord (text : List Char) (i : Nat) : Bool :=
  ! ((text.get? i == some '=') &&
     (match text.get? (i + 1) with
      | some c => isWordChar c
      | none => false))

/-- C6.  `process_pattern` with word breaks requested appends the
literal `(?!=\w)` — a negative lookahead for `=` followed by a word
character — not the negative lookahead `(?!\w)` the claim describes.
A match of the guarded pattern `abc` therefore ends at position 3 in
the text `abcd`, immediately before the word character `d`: the code's
guard accepts that position while the claimed guard rejects it, so
compiled citation regexes can match ending in the middle of a word. -/
theorem word_break_guard_counterexample :
    processPattern "abc" [] none true = "(?<!\\w)abc(?!=\\w)" ∧
    processPattern "abc" [] none true ≠ "(?<!\\w)abc(?!\\w)" ∧
    negLookaheadEqWord "abcd".toList 3 = true ∧
    negLookaheadWord "abcd".toList 3 = false := by
  refine ⟨by decide, by decide, by decide, by decide⟩

/-! ## Raw-token inheritance in `Citation.__init__` (citation.py 66-74) -/

/-- Python `raw_tokens.get(k)` when the stored values may themselves be
`None`: a missing key and a stored `None` are both `None`. -/
def pyGetOpt (d : List (String × Option String)) (k : String) : Option String :=
  match dictGet d k with
  | none => none
  | some v => v

/-- The raw-token inheritance loop of `Citation.__init__` (citation.py
lines 66-74): walk the template's token names in declared order,
copying the parent's raw value for each name whose child capture is
falsy; at the first name with a truthy child capture,
`merged_tokens.update(self.raw_tokens)` copies the child's whole group
dictionary — `None` and empty captures included — over what has been
collected, and the loop breaks.  When no capture is truthy the loop
runs out and only inherited values remain. -/
def mergeRawTokens (childRaw parentRaw : List (String × Option String)) :
    List String → List (String × Option String) → List (String × Option String)
  | [], acc => acc
  | k :: ks, acc =>
    if truthy (pyGetOpt childRaw k) then dictUpdate acc childRaw
    else
      mergeRawTokens childRaw parentRaw ks (dictSet acc k (pyGetOpt parentRaw k))

theorem dictGet_dictSet_self {α : Type} (d : List (String × α)) (k : String)
    (v : α) : dictGet (dictSet d k v) k = some v := by
  induction d with
  | nil => simp [dictSet, dictGet]
  | cons kv rest ih =>
    rcases kv with ⟨k', v'⟩
    rw [dictSet]
    split
    case isTrue h => simp [dictGet, h]
    case isFalse h => simp [dictGet, h, ih]

theorem dictGet_dictSet_ne {α : Type} (d : List (String × α)) (k : String)
    (v : α) (k' : String) (h : k' ≠ k) :
    dictGet (dictSet d k v) k' = dictGet d k' := by
  induction d with
  | nil =>
    show (if k = k' then some v else (none : Option α)) = none
    exact if_neg (fun hc => h hc.symm)
  | cons kv rest ih =>
    rcases kv with ⟨k₀, v₀⟩
    rw [dictSet]
    split
    case isTrue h₀ =>
      subst h₀
      show (if k₀ = k' then some v else dictGet rest k') =
        (if k₀ = k' then some v₀ else dictGet rest k')
      rw [if_neg (fun hc => h hc.symm), if_neg (fun hc => h hc.symm)]
    case isFalse h₀ =>
      show (if k₀ = k' then some v₀ else dictGet (dictSet rest k v) k') =
        (if k₀ = k' then some v₀ else dictGet rest k')
      by_cases hk : k₀ = k'
      · rw [if_pos hk, if_pos hk]
      · rw [if_neg hk, if_neg hk]
        exact ih

theorem dictGet_eq_none_of_not_mem {α : Type} (d : List (String × α))
    (k : String) (h : k ∉ d.map Prod.fst) : dictGet d k = none := by
  induction d with
  | nil => rfl
  | cons kv rest ih =>
    rcases kv with ⟨k₀, v₀⟩
    simp only [List.map_cons, List.mem_cons, not_or] at h
    rw [dictGet]
    rw [if_neg (fun hc => h.1 hc.symm)]
    exact ih h.2

theorem dictGet_dictUpdate_not_mem {α : Type} (d other : List (String × α))
    (k : String) (h : dictGet other k = none) :
    dictGet (dictUpdate d other) k = dictGet d k := by
  induction other generalizing d with
  | nil => rfl
  | cons kv rest ih =>
    rcases kv with ⟨k₀, v₀⟩
    rw [dictGet] at h
    by_cases hk : k₀ = k
    · simp [hk] at h
    · rw [if_neg hk] at h
      show dictGet (dictUpdate (dictSet d k₀ v₀) rest) k = dictGet d k
      rw [ih (dictSet d k₀ v₀) h]
      exact dictGet_dictSet_ne d k₀ v₀ k (fun hc => hk hc.symm)

theorem dictGet_dictUpdate_mem {α : Type} (d other : List (String × α))
    (k : String) (v : α) (hnd : (other.map Prod.fst).Nodup)
    (h : dictGet other k = some v) :
    dictGet (dictUpdate d other) k = some v := by
  induction other generalizing d with
  | nil => simp [dictGet] at h
  | cons kv rest ih =>
    rcases kv with ⟨k₀, v₀⟩
    simp only [List.map_cons, List.nodup_cons] at hnd
    rw [dictGet] at h
    by_cases hk : k₀ = k
    · rw [if_pos hk] at h
      simp only [Option.some.injEq] at h
      subst h
      subst hk
      have hrest : dictGet rest k₀ = none :=
        dictGet_eq_none_of_not_mem rest k₀ hnd.1
      show dictGet (dictUpdate (dictSet d k₀ v₀) rest) k₀ = some v₀
      rw [dictGet_dictUpdate_not_mem (dictSet d k₀ v₀) rest k₀ hrest]
      exact dictGet_dictSet_self d k₀ v₀
    · rw [if_neg hk] at h
      exact ih (dictSet d k₀ v₀) hnd.2 h

theorem mergeRawTokens_preserve
    {childRaw parentRaw : List (String × Option String)} {k : String}
    (hck : dictGet childRaw k = none) :
    ∀ (order : List String) (acc : List (String × Option String)),
      dictGet acc k = some (pyGetOpt parentRaw k) →
      dictGet (mergeRawTokens childRaw parentRaw order acc) k =
        some (pyGetOpt parentRaw k) := by
  intro order
  induction order with
  | nil =>
    intro acc hacc
    exact hacc
  | cons k₀ ks ih =>
    intro acc hacc
    rw [mergeRawTokens]
    split
    · rw [dictGet_dictUpdate_not_mem acc childRaw k hck]
      exact hacc
    · refine ih (dictSet acc k₀ (pyGetOpt parentRaw k₀)) ?_
      by_cases hk : k = k₀
      · subst hk
        exact dictGet_dictSet_self acc k (pyGetOpt parentRaw k)
      · rw [dictGet_dictSet_ne acc k₀ (pyGetOpt parentRaw k₀) k hk]
        exact hacc

theorem mergeRawTokens_spec
    (childRaw parentRaw : List (String × Option String))
    (hnd : (childRaw.map Prod.fst).Nodup) :
    ∀ (order : List String) (acc : List (String × Option String)),
      (∃ k ∈ order, truthy (pyGetOpt childRaw k) = true) →
      ((∀ k v, dictGet childRaw k = some v →
          dictGet (mergeRawTokens childRaw parentRaw order acc) k = some v) ∧
       (∀ k, k ∈ order.takeWhile (fun k => ! truthy (pyGetOpt childRaw k)) →
          dictGet childRaw k = none →
          dictGet (mergeRawTokens childRaw parentRaw order acc) k =
            some (pyGetOpt parentRaw k))) := by
  intro order
  induction order with
  | nil =>
    intro acc hcap
    rcases hcap with ⟨k, hk, _⟩
    simp at hk
  | cons k₀ ks ih =>
    intro acc hcap
    by_cases ht : truthy (pyGetOpt childRaw k₀) = true
    · constructor
      · intro k v hkv
        rw [mergeRawTokens, if_pos ht]
        exact dictGet_dictUpdate_mem acc childRaw k v hnd hkv
      · intro k hk _
        rw [List.takeWhile_cons, ht] at hk
        simp at hk
    · have hcap' : ∃ k ∈ ks, truthy (pyGetOpt childRaw k) = true := by
        rcases hcap with ⟨k, hk, hkt⟩
        rcases List.mem_cons.mp hk with rfl | hk
        · exact absurd hkt ht
        · exact ⟨k, hk, hkt⟩
      have ht' : truthy (pyGetOpt childRaw k₀) = false := by
        revert ht
        cases truthy (pyGetOpt childRaw k₀) <;> simp
      constructor
      · intro k v hkv
        rw [mergeRawTokens, if_neg (by rw [ht']; simp)]
        exact (ih (dictSet acc k₀ (pyGetOpt parentRaw k₀)) hcap').1 k v hkv
      · intro k hk hck
        rw [List.takeWhile_cons, ht'] at hk
        simp only [Bool.not_false, if_pos] at hk
        rw [mergeRawTokens, if_neg (by rw [ht']; simp)]
        rcases List.mem_cons.mp hk with rfl | hk
        · refine mergeRawTokens_preserve hck ks
            (dictSet acc k (pyGetOpt parentRaw k)) ?_
          exact dictGet_dictSet_self acc k (pyGetOpt parentRaw k)
        · exact (ih (dictSet acc k₀ (pyGetOpt parentRaw k₀)) hcap').2 k hk hck

/-- C7 counterexample.  Template token order `a, b`; the child's match
names both groups but captures only `b` (group `a` did not
participate); the parent captured `a` as `P`.  Token `a` strictly
precedes the first token the child captured, yet the merged raw tokens
hold `None` for `a` — the child's non-capture, copied in by
`merged_tokens.update(self.raw_tokens)` — not the parent's `P`. -/
theorem raw_token_inheritance_counterexample :
    mergeRawTokens [("a", none), ("b", some "X")]
        [("a", some "P"), ("b", some "Q")] ["a", "b"] [] =
      [("a", none), ("b", some "X")] ∧
    dictGet [("a", some "P"), ("b", some "Q")] "a" = some (some "P") ∧
    truthy (pyGetOpt [("a", none), ("b", some "X")] "a") = false ∧
    truthy (pyGetOpt [("a", none), ("b", some "X")] "b") = true := by
  refine ⟨by decide, by decide, by decide, by decide⟩

/-- C7 amended.  For every child citation with at least one truthy
capture: every name present in the child's group dictionary gets the
child's capture verbatim (the first truthy one and everything after it
included), and every declared name that strictly precedes the first
truthy capture and is absent from the child's group dictionary inherits
the parent's raw value. -/
theorem raw_token_inheritance_amended
    (childRaw parentRaw : List (String × Option String))
    (order : List String) (hnd : (childRaw.map Prod.fst).Nodup)
    (hcap : ∃ k ∈ order, truthy (pyGetOpt childRaw k) = true) :
    (∀ k v, dictGet childRaw k = some v →
        dictGet (mergeRawTokens childRaw parentRaw order []) k = some v) ∧
    (∀ k, k ∈ order.takeWhile (fun k => ! truthy (pyGetOpt childRaw k)) →
        dictGet childRaw k = none →
        dictGet (mergeRawTokens childRaw parentRaw order []) k =
          some (pyGetOpt parentRaw k)) :=
  mergeRawTokens_spec childRaw parentRaw hnd order [] hcap

theorem raw_token_inheritance_amended_witness :
    dictGet (mergeRawTokens [("b", some "X")] [("a", some "P")] ["a", "b"] [])
        "b" = some (some "X") ∧
    dictGet (mergeRawTokens [("b", some "X")] [("a", some "P")] ["a", "b"] [])
        "a" = some (some "P") :=
  ⟨(raw_token_inheritance_amended [("b", some "X")] [("a", some "P")]
      ["a", "b"] (by decide) (by decide)).1 "b" (some "X") (by decide),
   (raw_token_inheritance_amended [("b", some "X")] [("a", some "P")]
      ["a", "b"] (by decide) (by decide)).2 "a" (by decide) (by decide)⟩

/-! ## `Authority` and `list_authorities` (authority.py) -/

/-- A template as `Authority` consults it: its name and which of its
declared token names are severable.  (`Authority.__contains__` looks
severability up in `template.tokens`, which declares every name the
authority copied.) -/
structure TmplInfo where
  name : String
  severable : List String
deriving DecidableEq, Repr

/-- A citation as `list_authorities` consumes it: its template and its
normalized tokens in declared order; a value may be `None`. -/
structure ACite where
  tmpl : TmplInfo
  tokens : List (String × Option String)
deriving DecidableEq, Repr

/-- The token-copying loop of `Authority.__init__` (authority.py lines
18-22): copy the model citation's tokens in order, stopping (`break`)
at the first name listed in `ignored_tokens`. -/
def authorityTokens (ignored : List String) :
    List (String × Option String) → List (String × Option String)
  | [] => []
  | (k, v) :: rest =>
    if k ∈ ignored then [] else (k, v) :: authorityTokens ignored rest

/-- An `Authority` (authority.py lines 9-23). -/
structure Authority where
  tmpl : TmplInfo
  tokens : List (String × Option String)
  citations : List ACite
deriving DecidableEq, Repr

/-- `Authority(model_cite, ignored_tokens)`. -/
def Authority.ofCite (ignored : List String) (c : ACite) : Authority :=
  { tmpl := c.tmpl, tokens := authorityTokens ignored c.tokens,
    citations := [c] }

/-- The token loop of `Authority.__contains__` (authority.py lines
37-48): `sev` is the severability of the authority's template and
`cite` the candidate.  Every truthy authority value must be matched by
the candidate exactly, or — when the token is severable — as a prefix
of the candidate's truthy value; `cite.tokens[key]` raises `KeyError`
when the key is absent. -/
def containsLoop (sev : List String) (cite : ACite) :
    List (String × Option String) → Except PyErr Bool
  | [] => Except.ok true
  | (key, value) :: rest =>
    if truthy value = true ∧ pyGetOpt cite.tokens key ≠ value then
      if key ∈ sev then
        match dictGet cite.tokens key with
        | none => Except.error PyErr.keyErr
        | some w =>
          if truthy w = true then
            match w, value with
            | some ws, some vs =>
              if vs.toList.isPrefixOf ws.toList then containsLoop sev cite rest
              else Except.ok false
            | _, _ => Except.ok false
          else Except.ok false
      else Except.ok false
    else containsLoop sev cite rest

/-- `Authority.__contains__` (authority.py lines 34-48). -/
def authorityContains (a : Authority) (cite : ACite) : Except PyErr Bool :=
  if cite.tmpl.name ≠ a.tmpl.name then Except.ok false
  else containsLoop a.tmpl.severable cite a.tokens

/-- The placement scan of `list_authorities` (authority.py lines
118-124): the citation joins the first authority containing it; `none`
models the `for/else` fall-through that creates a new authority. -/
def placeCite (c : ACite) :
    List Authority → Except PyErr (Option (List Authority))
  | [] => Except.ok none
  | a :: rest =>
    match authorityContains a c with
    | Except.error e => Except.error e
    | Except.ok true =>
      Except.ok (some ({ a with citations := a.citations ++ [c] } :: rest))
    | Except.ok false =>
      match placeCite c rest with
      | Except.error e => Except.error e
      | Except.ok none => Except.ok none
      | Except.ok (some rest') => Except.ok (some (a :: rest'))

/-- One step of the stable `authorities.sort(key=lambda x:
-len(x.citations))` (authority.py line 125). -/
def insertAuth (a : Authority) : List Authority → List Authority
  | [] => [a]
  | b :: rest =>
    if b.citations.length ≤ a.citations.length then a :: b :: rest
    else b :: insertAuth a rest

/-- The final sort of `list_authorities`: by citation count,
descending, stable. -/
def sortAuthorities (l : List Authority) : List Authority :=
  l.foldr insertAuth []

/-- The loop of `list_authorities` (authority.py lines 115-126). -/
def listAuthoritiesGo (ignored : List String) :
    List ACite → List Authority → Except PyErr (List Authority)
  | [], auths => Except.ok (sortAuthorities auths)
  | c :: rest, auths =>
    match placeCite c auths with
    | Except.error e => Except.error e
    | Except.ok (some auths') => listAuthoritiesGo ignored rest auths'
    | Except.ok none =>
      listAuthoritiesGo ignored rest (auths ++ [Authority.ofCite ignored c])

/-- `list_authorities` (authority.py lines 105-126) on a citation
list. -/
def list_authorities (ignored : List String) (cites : List ACite) :
    Except PyErr (List Authority) :=
  listAuthoritiesGo ignored cites []

/-- The severable-prefix test in the amended claim: the candidate's
stored value is a nonempty string extending the authority's value. -/
def severableMatches (cite : ACite) (k : String) (v : Option String) : Bool :=
  match dictGet cite.tokens k, v with
  | some (some ws), some vs => ws ≠ "" && vs.toList.isPrefixOf ws.toList
  | _, _ => false

/-- The per-token grouping test of the amended claim: the value is
falsy, or matched exactly, or the token is severable and the
candidate's value extends it. -/
def tokenOk (sev : List String) (cite : ACite) (key : String)
    (v : Option String) : Bool :=
  ! truthy v || (pyGetOpt cite.tokens key == v) ||
  (sev.contains key && severableMatches cite key v)

/-- The grouping condition the code applies: same template name, and
every truthy token value the authority copied from its model citation
(the declared tokens before the first ignored name) is matched by the
candidate exactly or, for a severable token, as a prefix. -/
def sameAuthorityCond (ignored : List String) (c1 c2 : ACite) : Bool :=
  c2.tmpl.name == c1.tmpl.name &&
  (authorityTokens ignored c1.tokens).all (fun kv =>
    tokenOk c1.tmpl.severable c2 kv.1 kv.2)

/-- The default skip list of `Authority` and `list_authorities`
(authority.py lines 13 and 107). -/
def defaultIgnored : List String :=
  ["subsection", "clause", "pincite", "paragraph"]

/-- A non-severable template for the counterexample. -/
def uscTmpl : TmplInfo := { name := "usc", severable := [] }

/-- C8 counterexample.  Two citations of the same template whose only
difference is the `section` token, whose values contain no upper-case
character: under the claim's upper-case heuristic no token constrains
the grouping and they must share an Authority, but `list_authorities`
(which compares every token copied before the first ignored name,
upper-case or not) yields two authorities. -/
theorem authority_grouping_counterexample :
    (list_authorities defaultIgnored
      [ACite.mk uscTmpl [("title", some "42"), ("section", some "1983")],
       ACite.mk uscTmpl [("title", some "42"), ("section", some "2000")]]).map
        List.length = Except.ok 2 ∧
    (ACite.mk uscTmpl [("title", some "42"), ("section", some "1983")]).tmpl.name
      = (ACite.mk uscTmpl [("title", some "42"), ("section", some "2000")]).tmpl.name ∧
    ([some "42", some "1983", some "2000"].all (fun v =>
      match v with
      | some s => s.toList.all (fun c => ! c.isUpper)
      | none => true)) = true := by
  refine ⟨by decide, rfl, by decide⟩

theorem containsLoop_cons (sev : List String) (cite : ACite) (key : String)
    (value : Option String) (rest : List (String × Option String))
    (hkey : dictGet cite.tokens key ≠ none) :
    containsLoop sev cite ((key, value) :: rest) =
      if tokenOk sev cite key value = true then containsLoop sev cite rest
      else Except.ok false := by
  rcases value with _ | vs
  · rw [containsLoop, if_neg (by simp [truthy]),
      if_pos (by simp [tokenOk, truthy])]
  · by_cases heq : pyGetOpt cite.tokens key = some vs
    · rw [containsLoop, if_neg (by simp [heq]),
        if_pos (by simp [tokenOk, heq])]
    · by_cases hvs : vs = ""
      · subst hvs
        rw [containsLoop, if_neg (by simp [truthy]),
          if_pos (by simp [tokenOk, truthy])]
      · have htv : truthy (some vs) = true := by simp [truthy, hvs]
        rw [containsLoop, if_pos ⟨htv, heq⟩]
        by_cases hsev : key ∈ sev
        · rw [if_pos hsev]
          have hsev' : sev.contains key = true := by simpa using hsev
          rcases hget : dictGet cite.tokens key with _ | w
          · exact absurd hget hkey
          · rcases w with _ | ws
            · have hok : tokenOk sev cite key (some vs) = false := by
                simp [tokenOk, severableMatches, htv, heq, hget]
              rw [hok]
              simp [truthy]
            · by_cases hws : ws = ""
              · subst hws
                have hok : tokenOk sev cite key (some vs) = false := by
                  simp [tokenOk, severableMatches, htv, heq, hget]
                rw [hok]
                simp [truthy]
              · have htw : truthy (some ws) = true := by simp [truthy, hws]
                by_cases hpre : vs.data <+: ws.data
                · have hok : tokenOk sev cite key (some vs) = true := by
                    simp [tokenOk, severableMatches, htv, heq, hget, hws]
                    exact ⟨hsev, hpre⟩
                  rw [hok]
                  simp [htw, hpre]
                · have hok : tokenOk sev cite key (some vs) = false := by
                    simp [tokenOk, severableMatches, htv, heq, hget, hws]
                    intro _
                    rcases hb : vs.data.isPrefixOf ws.data with _ | _
                    · rfl
                    · exact absurd (by simpa using hb) hpre
                  rw [hok]
                  simp [htw, hpre]
        · rw [if_neg hsev]
          have hok : tokenOk sev cite key (some vs) = false := by
            simp [tokenOk, htv, heq]
            intro hmem
            exact absurd hmem hsev
          rw [hok]
          simp

theorem containsLoop_eq (sev : List String) (cite : ACite) :
    ∀ l : List (String × Option String),
      (∀ kv ∈ l, dictGet cite.tokens kv.1 ≠ none) →
      containsLoop sev cite l =
        Except.ok (l.all (fun kv => tokenOk sev cite kv.1 kv.2)) := by
  intro l
  induction l with
  | nil =>
    intro _
    rfl
  | cons kv rest ih =>
    intro hkeys
    rcases kv with ⟨key, value⟩
    rw [containsLoop_cons sev cite key value rest
      (hkeys (key, value) (List.mem_cons_self _ _))]
    rw [List.all_cons]
    rcases hok : tokenOk sev cite key value with _ | _
    · rw [if_neg (by simp)]
      simp
    · rw [if_pos rfl]
      rw [ih (fun kv hkv => hkeys kv (List.mem_cons_of_mem _ hkv))]
      simp

theorem authorityContains_ofCite (ignored : List String) (c1 c2 : ACite)
    (hkeys : ∀ kv ∈ authorityTokens ignored c1.tokens,
      dictGet c2.tokens kv.1 ≠ none) :
    authorityContains (Authority.ofCite ignored c1) c2 =
      Except.ok (sameAuthorityCond ignored c1 c2) := by
  by_cases hname : c2.tmpl.name = c1.tmpl.name
  · have h1 : ¬ c2.tmpl.name ≠ (Authority.ofCite ignored c1).tmpl.name := by
      simp [Authority.ofCite, hname]
    rw [authorityContains, if_neg h1]
    rw [containsLoop_eq (Authority.ofCite ignored c1).tmpl.severable c2
      (Authority.ofCite ignored c1).tokens hkeys]
    unfold sameAuthorityCond
    have h2 : (c2.tmpl.name == c1.tmpl.name) = true := by simpa using hname
    rw [h2, Bool.true_and]
    rfl
  · have h1 : c2.tmpl.name ≠ (Authority.ofCite ignored c1).tmpl.name := by
      simp [Authority.ofCite, hname]
    rw [authorityContains, if_pos h1]
    unfold sameAuthorityCond
    have h2 : (c2.tmpl.name == c1.tmpl.name) = false := by simpa using hname
    rw [h2, Bool.false_and]

theorem length_insertAuth (a : Authority) (l : List Authority) :
    (insertAuth a l).length = l.length + 1 := by
  induction l with
  | nil => rfl
  | cons b rest ih =>
    rw [insertAuth]
    split
    · simp
    · simp [ih]

theorem length_sortAuthorities (l : List Authority) :
    (sortAuthorities l).length = l.length := by
  unfold sortAuthorities
  induction l with
  | nil => rfl
  | cons a rest ih =>
    simp [List.foldr_cons, length_insertAuth, ih]

/-- C8 amended.  Two citations are grouped into the same Authority by
`list_authorities` iff their templates share a name and every truthy
token value copied into the authority — the first citation's declared
tokens before the first ignored name — is matched by the second
citation exactly, with a severable token also matching when the
authority's value is a prefix of the candidate's.  (The hypothesis that
the candidate has an entry for each compared key reflects that both
citations carry their template's full token dictionary.) -/
theorem authority_grouping_amended (ignored : List String) (c1 c2 : ACite)
    (hkeys : ∀ kv ∈ authorityTokens ignored c1.tokens,
      dictGet c2.tokens kv.1 ≠ none) :
    (list_authorities ignored [c1, c2]).map List.length =
      Except.ok (if sameAuthorityCond ignored c1 c2 then 1 else 2) := by
  have step1 : list_authorities ignored [c1, c2] =
      listAuthoritiesGo ignored [c2] [Authority.ofCite ignored c1] := rfl
  rw [step1, listAuthoritiesGo, placeCite,
    authorityContains_ofCite ignored c1 c2 hkeys]
  rcases hcond : sameAuthorityCond ignored c1 c2 with _ | _
  · simp [placeCite, listAuthoritiesGo, length_sortAuthorities, Except.map]
  · simp [listAuthoritiesGo, length_sortAuthorities, Except.map]

/-- A severable template for the witness. -/
def sectionTmpl : TmplInfo := { name := "usc", severable := ["section"] }

theorem authority_grouping_amended_witness :
    (list_authorities defaultIgnored
      [ACite.mk sectionTmpl [("section", some "(b)(2)")],
       ACite.mk sectionTmpl [("section", some "(b)(2)(A)")]]).map
        List.length = Except.ok 1 :=
  authority_grouping_amended defaultIgnored
    (ACite.mk sectionTmpl [("section", some "(b)(2)")])
    (ACite.mk sectionTmpl [("section", some "(b)(2)(A)")])
    (by decide)

/-! ## `insert_links` (hyperlink.py lines 3-55) -/

/-- A citation as `insert_links` consumes it: the matched text, its
span, and the `URL` and `name` properties. -/
structure LCite where
  text : String
  start : Nat
  stop : Nat
  url : Option String
  name : Option String
deriving DecidableEq, Repr

/-- The attribute string (hyperlink.py lines 41-44): one
` key="value"` item per truthy value of the attrs dict. -/
def attrsToStr (attrs : List (String × Option String)) : String :=
  String.join (attrs.filterMap (fun kv =>
    match kv.2 with
    | some v =>
      if v = "" then none else some (" " ++ kv.1 ++ "=\"" ++ v ++ "\"")
    | none => none))

/-- The loop of `insert_links` (hyperlink.py lines 28-55), threading
the mutable `attrs` dictionary, the running offset and `last_URL`.
Python runs `attrs['href'] = cite.URL` before the two skip tests, so
even a skipped citation leaves its URL in the shared dictionary, while
`title` is written only for linked citations.  The two `continue`
tests are the disjunction below; the offset never becomes negative (a
link is longer than the text it wraps), so the `Int.toNat` slice
positions agree with Python's. -/
def insertLinksLoop (addTitle URLoptional redundantLinks : Bool) :
    List LCite → List Char → List (String × Option String) → Int →
      Option String → List Char × List (String × Option String)
  | [], text, attrs, _, _ => (text, attrs)
  | cite :: rest, text, attrs, offset, lastURL =>
    let attrs := dictSet attrs "href" cite.url
    if (truthy cite.url = false ∧ URLoptional = false) ∨
        (redundantLinks = false ∧ cite.url = lastURL) then
      insertLinksLoop addTitle URLoptional redundantLinks rest text attrs
        offset lastURL
    else
      let attrs := if addTitle = true then dictSet attrs "title" cite.name
        else attrs
      let link := ("<a" ++ attrsToStr attrs ++ ">" ++ cite.text ++ "</a>").toList
      let s0 := ((cite.start : Int) + offset).toNat
      let s1 := ((cite.stop : Int) + offset).toNat
      let nextText := text.take s0 ++ link ++ text.drop s1
      let nextOffset := offset + (link.length : Int) - (cite.text.toList.length : Int)
      insertLinksLoop addTitle URLoptional redundantLinks rest nextText attrs
        nextOffset cite.url

/-- `insert_links` (hyperlink.py lines 3-55), returning the rewritten
text together with the final state of the caller-shared attrs
dictionary (the default argument `{'class': 'citation'}` is one shared
module-level dict in Python, so that state persists across calls that
omit the argument). -/
def insert_links (citations : List LCite) (text : String)
    (attrs : List (String × Option String))
    (addTitle URLoptional redundantLinks : Bool) :
    String × List (String × Option String) :=
  let r := insertLinksLoop addTitle URLoptional redundantLinks citations
    text.toList attrs 0 none
  (String.mk r.1, r.2)

/-- The last citation of a nonempty list, phrased structurally so that
it computes by iota-reduction. -/
def lastD : List LCite → LCite → LCite
  | [], d => d
  | c :: rest, _ => lastD rest c

theorem getLastD_eq_lastD : ∀ (rest : List LCite) (c : LCite),
    rest.getLastD c = lastD rest c := by
  intro rest
  induction rest with
  | nil =>
    intro c
    rfl
  | cons c2 r2 ih =>
    intro c
    rw [List.getLastD_cons]
    exact ih c2

theorem dictGet_href_after_title (d : List (String × Option String))
    (b : Bool) (v : Option String) :
    dictGet (if b = true then dictSet d "title" v else d) "href" =
      dictGet d "href" := by
  cases b
  · rfl
  · exact dictGet_dictSet_ne d "title" v "href" (by decide)

theorem insertLinksLoop_href (a u r : Bool) :
    ∀ (cs : List LCite) (text : List Char)
      (attrs : List (String × Option String)) (offset : Int)
      (lastURL : Option String),
      dictGet (insertLinksLoop a u r cs text attrs offset lastURL).2 "href" =
        (match cs with
         | [] => dictGet attrs "href"
         | c :: rest => some ((lastD rest c).url)) := by
  intro cs
  induction cs with
  | nil =>
    intro text attrs offset lastURL
    rfl
  | cons c rest ih =>
    intro text attrs offset lastURL
    simp only [insertLinksLoop]
    split
    · rw [ih text (dictSet attrs "href" c.url) offset lastURL]
      rcases rest with _ | ⟨c2, r2⟩
      · exact dictGet_dictSet_self attrs "href" c.url
      · rfl
    · rw [ih _ _ _ _]
      rcases rest with _ | ⟨c2, r2⟩
      · rw [dictGet_href_after_title (dictSet attrs "href" c.url) a c.name]
        exact dictGet_dictSet_self attrs "href" c.url
      · rfl

theorem insertLinksLoop_title :
    ∀ (cs : List LCite) (text : List Char)
      (attrs : List (String × Option String)) (offset : Int)
      (lastURL : Option String),
      dictGet
        (insertLinksLoop true true true cs text attrs offset lastURL).2
        "title" =
        (match cs with
         | [] => dictGet attrs "title"
         | c :: rest => some ((lastD rest c).name)) := by
  intro cs
  induction cs with
  | nil =>
    intro text attrs offset lastURL
    rfl
  | cons c rest ih =>
    intro text attrs offset lastURL
    simp only [insertLinksLoop]
    split
    case isTrue h =>
      rcases h with ⟨_, h⟩ | ⟨h, _⟩ <;> simp at h
    case isFalse h =>
      rw [ih _ _ _ _]
      rcases rest with _ | ⟨c2, r2⟩
      · exact dictGet_dictSet_self (dictSet attrs "href" c.url) "title" c.name
      · rfl

/-- C10.  `insert_links` mutates the attrs dictionary it receives: it
writes an `href` entry on every citation it iterates over (the last
iterated citation's URL remains), writes a `title` entry when
`add_title` is set (shown for runs whose policy flags skip no
citation), and consequently never returns the dictionary unchanged
when it lacked an `href` entry; the text is rebuilt rather than
mutated. -/
theorem insert_links_mutates_attrs (cs : List LCite) (text : String)
    (attrs : List (String × Option String)) (addTitle uo rl : Bool)
    (hne : cs ≠ []) :
    dictGet (insert_links cs text attrs addTitle uo rl).2 "href" =
      some (cs.getLast hne).url ∧
    (addTitle = true → uo = true → rl = true →
      dictGet (insert_links cs text attrs addTitle uo rl).2 "title" =
        some (cs.getLast hne).name) ∧
    (dictGet attrs "href" = none →
      (insert_links cs text attrs addTitle uo rl).2 ≠ attrs) := by
  rcases cs with _ | ⟨c, rest⟩
  · exact absurd rfl hne
  · have hlast : (c :: rest).getLast hne = lastD rest c := by
      rw [List.getLast_eq_getLastD]
      exact getLastD_eq_lastD rest c
    have h1 : dictGet (insert_links (c :: rest) text attrs addTitle uo rl).2
        "href" = some (lastD rest c).url :=
      insertLinksLoop_href addTitle uo rl (c :: rest) text.toList attrs 0 none
    refine ⟨by rw [hlast]; exact h1, ?_, ?_⟩
    · intro ha hu hr
      subst ha
      subst hu
      subst hr
      rw [hlast]
      exact insertLinksLoop_title (c :: rest) text.toList attrs 0 none
    · intro h0 hcontra
      rw [hcontra, h0] at h1
      exact Option.noConfusion h1

theorem insert_links_mutates_attrs_witness :
    dictGet (insert_links [LCite.mk "42 USC" 0 6 (some "u") (some "n")]
      "42 USC x" [("class", some "citation")] true true true).2 "href" =
        some (some "u") ∧
    (insert_links [LCite.mk "42 USC" 0 6 (some "u") (some "n")] "42 USC x"
      [("class", some "citation")] true true true).2 ≠
        [("class", some "citation")] :=
  ⟨(insert_links_mutates_attrs [LCite.mk "42 USC" 0 6 (some "u") (some "n")]
      "42 USC x" [("class", some "citation")] true true true
      (by simp)).1,
   (insert_links_mutates_attrs [LCite.mk "42 USC" 0 6 (some "u") (some "n")]
      "42 USC x" [("class", some "citation")] true true true
      (by simp)).2.2 (by decide)⟩

end CiteURL
